import Mathlib

/-!
Verification of the kj-speech-mcp text-to-speech server logic.

The repository contains two versions of the same Go program:
`src/main.go` and a refactored variant (`src/unnamed/part_000`) that routes
command failures through a helper `formatCommandError`.  Both expose two
handlers, `handleSpeak` and `handleVoices`, which validate a loosely typed
argument map, build an argument list for the external `/usr/bin/say`
command, run it under a cancellable context, and format results.

This file shallowly embeds that logic:
* Go strings are Lean `String`/`List Char`;
* the JSON-decoded argument map is an association list of `GoVal`
  (JSON numbers decode to Go `float64`, modelled as `ℚ`: every finite
  float is a rational and the program only compares and rounds them);
* the external process is an oracle `List String → ProcResult` giving the
  combined output and the `error` result of `cmd.CombinedOutput()`;
* the context state at the error check is `Option CtxReason`
  (`ctx.Err()` is `nil`, `context.Canceled` or `context.DeadlineExceeded`).
-/

namespace KJSpeech

/-- Go `unicode.IsSpace` (the White_Space property, used by
`strings.TrimSpace`): tab, newline, vertical tab, form feed, carriage
return, space, NEL, NBSP and the Unicode space separators. -/
def goUnicodeSpace (c : Char) : Bool :=
  c = '\t' || c = '\n' || c.toNat = 11 || c.toNat = 12 || c = '\r' || c = ' ' ||
  c.toNat = 0x85 || c.toNat = 0xA0 || c.toNat = 0x1680 ||
  (0x2000 ≤ c.toNat && c.toNat ≤ 0x200A) ||
  c.toNat = 0x2028 || c.toNat = 0x2029 || c.toNat = 0x202F ||
  c.toNat = 0x205F || c.toNat = 0x3000

/-- Go regexp Perl class `\s` = `[\t\n\f\r ]` (used by the voice pattern). -/
def goReSpace (c : Char) : Bool :=
  c = '\t' || c = '\n' || c.toNat = 12 || c = '\r' || c = ' '

/-- Trim `unicode.IsSpace` characters from both ends of a character list. -/
def trimChars (cs : List Char) : List Char :=
  ((cs.dropWhile goUnicodeSpace).reverse.dropWhile goUnicodeSpace).reverse

/-- Go `strings.TrimSpace`. -/
def trimSpace (s : String) : String :=
  String.mk (trimChars s.toList)

/-- Does `cs` start with `pat`? -/
def startsWithL : List Char → List Char → Bool
  | _, [] => true
  | [], _ :: _ => false
  | c :: cs, p :: ps => c = p && startsWithL cs ps

/-- Does `hay` contain `pat` as a contiguous sublist? -/
def hasSubL : List Char → List Char → Bool
  | [], pat => startsWithL [] pat
  | c :: t, pat => startsWithL (c :: t) pat || hasSubL t pat

/-- Go `strings.Contains` (an ASCII needle in valid UTF-8 text matches at
byte level exactly when it matches at rune level). -/
def hasSub (s pat : String) : Bool := hasSubL s.toList pat.toList

/-- String prefix test, used to separate message classes. -/
def strStartsWith (s pre : String) : Bool := startsWithL s.toList pre.toList

/-- ASCII lowering of one character. -/
def asciiLowerChar (c : Char) : Char :=
  if 'A' ≤ c ∧ c ≤ 'Z' then Char.ofNat (c.toNat + 32) else c

/-- Go `strings.ToLower`, restricted to ASCII (the only inputs in this
program are the ASCII action constants `"Execute speech synthesis"` and
`"Retrieve voice list"`, on which Unicode case mapping agrees with ASCII). -/
def asciiToLower (s : String) : String :=
  String.mk (s.toList.map asciiLowerChar)

/-- A value of the loosely typed argument map (`map[string]interface{}` after
JSON decoding): a string, a number (Go `float64`), or anything else. -/
inductive GoVal where
  | str : String → GoVal
  | num : ℚ → GoVal
  | other : GoVal
deriving DecidableEq

/-- The decoded argument map, as an association list keyed by field name. -/
abbrev GoArgs := List (String × GoVal)

/-- Go map lookup `args[key]`. -/
def lookupArg (args : GoArgs) (key : String) : Option GoVal :=
  (args.find? (fun p => p.1 = key)).map (fun p => p.2)

/-- Remove a key from the argument map (used to state that wrong-typed
optional entries behave as if absent). -/
def removeArg (args : GoArgs) (key : String) : GoArgs :=
  args.filter (fun p => p.1 != key)

/-- Models mcp-go `CallToolRequest.RequireString`: the argument must be
present and a string, otherwise an error is returned. -/
def requireString (args : GoArgs) (key : String) : Except String String :=
  match lookupArg args key with
  | some (GoVal.str s) => Except.ok s
  | some _ => Except.error ("argument \"" ++ key ++ "\" is not of type \"string\"")
  | none => Except.error ("required argument \"" ++ key ++ "\" not found")

/-- The state of `ctx.Err()` when it is non-nil: `context.Canceled` or
`context.DeadlineExceeded`. -/
inductive CtxReason where
  | canceled : CtxReason
  | deadlineExceeded : CtxReason
deriving DecidableEq

/-- The `Error()` text of the two context errors (`fmt.Sprintf("%v", ctx.Err())`). -/
def ctxErrMsg : CtxReason → String
  | CtxReason.canceled => "context canceled"
  | CtxReason.deadlineExceeded => "context deadline exceeded"

/-- Result of `cmd.CombinedOutput()`: the combined stdout+stderr blob and
the `error` value (`none` on success, `some e` with `e = err.Error()`). -/
structure ProcResult where
  err : Option String
  output : String
deriving DecidableEq

/-- The external process, as a deterministic oracle from the argument list
passed after the command path to the invocation's outcome. -/
abbrev Proc := List String → ProcResult

/-- A tool result: `mcp.NewToolResultError` or `mcp.NewToolResultText`.
Both are returned with a `nil` transport error in the source. -/
inductive ToolResult where
  | error : String → ToolResult
  | text : String → ToolResult
deriving DecidableEq

/-- The fixed command path (`sayCommand` in the source). -/
def sayCommand : String := "/usr/bin/say"

/-- The raw-string constant `permissionGuidance` from the source (it starts
with two newlines; the remediation lines cover accessibility permissions,
an audio-capable user session, and SSH audio forwarding). -/
def permissionGuidance : String :=
  "\n\nPermission denied. Please ensure:\n1. The application has accessibility permissions in System Preferences\n2. You are running in a user session with audio output available\n3. You are not running in an SSH session without audio forwarding"

/-- Round half to even, the rounding used by Go `fmt.Sprintf("%.0f", x)`. -/
def rhe (q : ℚ) : ℤ :=
  if q - ⌊q⌋ < 1/2 then ⌊q⌋
  else if (1 : ℚ)/2 < q - ⌊q⌋ then ⌊q⌋ + 1
  else if 2 ∣ ⌊q⌋ then ⌊q⌋ else ⌊q⌋ + 1

/-- Go `fmt.Sprintf("%.0f", rate)`: the correctly rounded (ties to even)
integer rendering of the value. -/
def goFmtF0 (q : ℚ) : String := toString (rhe q)

/-- The voice-flag block of `handleSpeak` (main.go lines 92-94): if the
`voice` entry is present as a non-empty string, emit `["-v", voice]`. -/
def voiceArgsOf (args : GoArgs) : List String :=
  match lookupArg args ("voice") with
  | some (GoVal.str v) => if v = "" then [] else ["-v", v]
  | _ => []

/-- Lines 74-108 of `handleSpeak` in `src/main.go` (identical to lines
80-106 of `src/unnamed/part_000`): extract and validate `text`, read the
optional `voice` and `rate` entries, and build the `say` argument list.
Returns the built list together with the trimmed text, or the validation
error message. -/
def speakPrep (args : GoArgs) : Except String (List String × String) :=
  match requireString args ("text") with
  | Except.error e => Except.error ("Invalid parameter \x27text\x27: " ++ e)
  | Except.ok t0 =>
    let text := trimSpace t0
    if text = "" then Except.error ("Parameter \x27text\x27 cannot be empty")
    else
      match lookupArg args ("rate") with
      | some (GoVal.num r) =>
        if 0 < r then
          if r < 90 ∨ 500 < r then
            Except.error ("Rate " ++ goFmtF0 r ++ " is outside acceptable range (90-500 words per minute)")
          else Except.ok (voiceArgsOf args ++ ["-r", goFmtF0 r] ++ [text], text)
        else Except.ok (voiceArgsOf args ++ [text], text)
      | _ => Except.ok (voiceArgsOf args ++ [text], text)

/-- `handleSpeak` from `src/main.go` (lines 72-137): validation and
argument building via `speakPrep`, then execution of `say` and error
formatting.  `ctx` is the state of `ctx.Err()` at the error check. -/
def handleSpeak (ctx : Option CtxReason) (args : GoArgs) (proc : Proc) : ToolResult :=
  match speakPrep args with
  | Except.error m => ToolResult.error m
  | Except.ok (cmdArgs, text) =>
    let res := proc cmdArgs
    match res.err with
    | none => ToolResult.text ("Successfully spoke: " ++ text)
    | some e =>
      match ctx with
      | some r => ToolResult.error ("Speech synthesis cancelled: " ++ ctxErrMsg r)
      | none =>
        let m1 := "Failed to execute speech synthesis: " ++ e
        let m2 := if res.output = "" then m1 else m1 ++ "\nOutput: " ++ res.output
        let m3 := if hasSub e ("permission denied") then m2 ++ permissionGuidance else m2
        ToolResult.error m3

/-- A parsed voice record (struct `Voice` in the source). -/
structure Voice where
  name : String
  locale : String
  description : String
deriving DecidableEq

/-- The tail of the voice pattern `\s+(\S+)\s+#\s*(.*)$` after the
non-greedy name group, specialised to its forced (backtracking-free)
form: each `\s+`/`\S+` run must be maximal, since shortening any of them
makes the following atom fail on the same character class; `\s*` is
greedy and `(.*)` takes the remainder.  Returns the locale and
description captures. -/
def matchTail (cs : List Char) : Option (List Char × List Char) :=
  let s1 := cs.takeWhile goReSpace
  let r1 := cs.dropWhile goReSpace
  if s1 = [] then none
  else
    let g2 := r1.takeWhile (fun c => !(goReSpace c))
    let r2 := r1.dropWhile (fun c => !(goReSpace c))
    if g2 = [] then none
    else
      let s2 := r2.takeWhile goReSpace
      let r3 := r2.dropWhile goReSpace
      if s2 = [] then none
      else
        match r3 with
        | '#' :: r4 => some (g2, r4.dropWhile goReSpace)
        | _ => none

/-- Backtracking loop of Go regexp matching for
`^(.+?)\s+(\S+)\s+#\s*(.*)$` (leftmost-first submatch semantics): the
non-greedy `(.+?)` takes the shortest prefix (accumulated reversed in
`acc`) whose remainder matches the pattern tail; `.` never matches a
newline, so a newline in the name group, or left for `(.*)`, fails that
split. -/
def voiceMatchAux : List Char → List Char → Option (List Char × List Char × List Char)
  | _, [] => none
  | acc, c :: rest =>
    if c = '\n' then none
    else
      match matchTail rest with
      | some (g2, g3) =>
        if g3.contains '\n' then voiceMatchAux (c :: acc) rest
        else some ((c :: acc).reverse, g2, g3)
      | none => voiceMatchAux (c :: acc) rest

/-- `voicePattern.FindStringSubmatch` on one line: the three captured
groups of `^(.+?)\s+(\S+)\s+#\s*(.*)$`, or `none` when the line does not
match (in the source, `len(matches) == 4` exactly when the match
succeeds). -/
def voiceMatch (cs : List Char) : Option (List Char × List Char × List Char) :=
  voiceMatchAux [] cs

/-- One iteration of the parsing loop of `handleVoices`: trim the line,
skip it when empty, otherwise apply the voice pattern and build a `Voice`
from the trimmed captures; non-matching lines yield nothing. -/
def parseLine (cs : List Char) : Option Voice :=
  let t := trimChars cs
  if t = [] then none
  else
    match voiceMatch t with
    | some (g1, g2, g3) =>
      some ⟨String.mk (trimChars g1), String.mk (trimChars g2), String.mk (trimChars g3)⟩
    | none => none

/-- Go `strings.Split(s, "\n")` on character lists. -/
def splitNL : List Char → List (List Char)
  | [] => [[]]
  | c :: cs =>
    if c = '\n' then [] :: splitNL cs
    else
      match splitNL cs with
      | [] => [[c]]
      | t :: ts => (c :: t) :: ts

/-- Join lines with newlines (inverse of `splitNL` on newline-free lines). -/
def joinNL : List (List Char) → List Char
  | [] => []
  | [l] => l
  | l :: ls => l ++ '\n' :: joinNL ls

/-- The parsing loop of `handleVoices` (main.go lines 175-196): split the
combined output on newlines and collect a `Voice` per matching line. -/
def parseVoices (out : String) : List Voice :=
  (splitNL out.toList).filterMap parseLine

/-- Hexadecimal digit characters as written by Go `encoding/json`
(lowercase). -/
def hexDigit (n : Nat) : Char :=
  if n < 10 then Char.ofNat (48 + n) else Char.ofNat (87 + n)

/-- Escaping of one character by Go `encoding/json` string encoding with
the default HTML escaping: quote, backslash, the named control escapes,
`\u00XX` for other control characters, `<`/`>`/`&` for the
HTML-sensitive characters, and the U+2028/U+2029 line separators. -/
def escCharL (c : Char) : List Char :=
  if c = '"' then ['\\', '"']
  else if c = '\\' then ['\\', '\\']
  else if c = '\n' then ['\\', 'n']
  else if c = '\r' then ['\\', 'r']
  else if c = '\t' then ['\\', 't']
  else if c.toNat < 32 then ['\\', 'u', '0', '0', hexDigit (c.toNat / 16), hexDigit (c.toNat % 16)]
  else if c = '<' then ['\\', 'u', '0', '0', '3', 'c']
  else if c = '>' then ['\\', 'u', '0', '0', '3', 'e']
  else if c = '&' then ['\\', 'u', '0', '0', '2', '6']
  else if c.toNat = 0x2028 then ['\\', 'u', '2', '0', '2', '8']
  else if c.toNat = 0x2029 then ['\\', 'u', '2', '0', '2', '9']
  else [c]

/-- A Go-JSON-encoded string literal, as a character list: quote, escaped
body, quote. -/
def escChars (s : String) : List Char :=
  '"' :: (s.toList.map escCharL).flatten ++ ['"']

/-- A Go-JSON-encoded string literal. -/
def escapeJSONString (s : String) : String := String.mk (escChars s)

/-- Compact `json.Marshal` encoding of one `Voice` value: the struct tags
name the fields `name`, `locale`, `description`, in declaration order. -/
def objL (v : Voice) : List Char :=
  '\x7b' :: (escChars ("name") ++ ':' :: escChars v.name ++
    ',' :: escChars ("locale") ++ ':' :: escChars v.locale ++
    ',' :: escChars ("description") ++ ':' :: escChars v.description ++ ['\x7d'])

/-- Compact encodings of a voice list's elements, comma separated. -/
def objsL : List Voice → List Char
  | [] => []
  | [v] => objL v
  | v :: vs => objL v ++ ',' :: objsL vs

/-- Compact `json.Marshal` encoding of `VoicesResponse{Voices: vs}`: a
single-field object `\x7b"voices":[...]\x7d`; the slice is created
non-nil in the source, so an empty list encodes as `[]`. -/
def compactVoicesL (vs : List Voice) : List Char :=
  '\x7b' :: (escChars ("voices") ++ ':' ::
    (match vs with
     | [] => ['[', ']']
     | v :: rest => '[' :: objsL (v :: rest) ++ [']']) ++ ['\x7d'])

/-- Indentation emitted by `json.Indent` with prefix `""` and indent
`"  "` at nesting depth `d`. -/
def indL (d : Nat) : List Char := List.replicate (2 * d) ' '

/-- Go `json.Indent` (prefix `""`, indent `"  "`) on a compact valid JSON
value, as a character-list transducer.  The two boolean states track
being inside a string literal and having just read a backslash there.
Outside strings: an opening brace or bracket starts an indented block
unless immediately closed, a closing brace or bracket moves to a fresh
indented line, a comma breaks the line, and a colon gains a space. -/
def indentGoAux : Nat → Bool → Bool → List Char → List Char
  | _, _, _, [] => []
  | d, true, true, c :: cs => c :: indentGoAux d true false cs
  | d, true, false, c :: cs =>
    if c = '\\' then '\\' :: indentGoAux d true true cs
    else if c = '"' then '"' :: indentGoAux d false false cs
    else c :: indentGoAux d true false cs
  | d, false, _, c :: cs =>
    if c = '"' then '"' :: indentGoAux d true false cs
    else if c = '\x7b' then
      match cs with
      | [] => ['\x7b']
      | c2 :: cs2 =>
        if c2 = '\x7d' then '\x7b' :: '\x7d' :: indentGoAux d false false cs2
        else '\x7b' :: '\n' :: (indL (d + 1) ++ indentGoAux (d + 1) false false (c2 :: cs2))
    else if c = '[' then
      match cs with
      | [] => ['[']
      | c2 :: cs2 =>
        if c2 = ']' then '[' :: ']' :: indentGoAux d false false cs2
        else '[' :: '\n' :: (indL (d + 1) ++ indentGoAux (d + 1) false false (c2 :: cs2))
    else if c = '\x7d' then '\n' :: (indL (d - 1) ++ '\x7d' :: indentGoAux (d - 1) false false cs)
    else if c = ']' then '\n' :: (indL (d - 1) ++ ']' :: indentGoAux (d - 1) false false cs)
    else if c = ',' then ',' :: '\n' :: (indL d ++ indentGoAux d false false cs)
    else if c = ':' then ':' :: ' ' :: indentGoAux d false false cs
    else c :: indentGoAux d false false cs
termination_by _ _ _ cs => cs.length
decreasing_by all_goals simp +arith [List.length_cons]

/-- `json.MarshalIndent(response, "", "  ")` for the voices response:
compact marshalling followed by the indent transformation. -/
def goMarshalIndentVoices (vs : List Voice) : String :=
  String.mk (indentGoAux 0 false false (compactVoicesL vs))

/-- `handleVoices` from `src/main.go` (lines 152-210): run
`say -v ?`, format failures (cancellation first), otherwise parse the
output and return the indented JSON document.  `json.MarshalIndent`
cannot fail on this data shape, so the serialization-error branch is
unreachable and has no counterpart here. -/
def handleVoices (ctx : Option CtxReason) (proc : Proc) : ToolResult :=
  let res := proc ["-v", "?"]
  match res.err with
  | none => ToolResult.text (goMarshalIndentVoices (parseVoices res.output))
  | some e =>
    match ctx with
    | some r => ToolResult.error ("Voice listing cancelled: " ++ ctxErrMsg r)
    | none =>
      let m1 := "Failed to retrieve voice list: " ++ e
      let m2 := if res.output = "" then m1 else m1 ++ "\nOutput: " ++ res.output
      ToolResult.error m2

end KJSpeech

namespace KJSpeech.Alt

/-- `formatCommandError` from `src/unnamed/part_000` (lines 63-76):
cancellation takes precedence; otherwise the action is lowercased into a
`Failed to ...` message, captured output is appended, and the permission
guidance is added when the error text contains `"permission denied"`. -/
def formatCommandError (ctx : Option CtxReason) (action : String) (e : String) (output : String) : String :=
  match ctx with
  | some r => action ++ " cancelled: " ++ ctxErrMsg r
  | none =>
    let m1 := "Failed to " ++ asciiToLower action ++ ": " ++ e
    let m2 := if output = "" then m1 else m1 ++ "\nOutput: " ++ output
    if hasSub e ("permission denied") then m2 ++ permissionGuidance else m2

/-- `handleSpeak` from `src/unnamed/part_000` (lines 79-115): its
validation and argument building (lines 80-106) are textually identical
to main.go's, hence shared as `speakPrep`; failures go through
`formatCommandError` with action `"Execute speech synthesis"`. -/
def handleSpeak (ctx : Option CtxReason) (args : GoArgs) (proc : Proc) : ToolResult :=
  match speakPrep args with
  | Except.error m => ToolResult.error m
  | Except.ok (cmdArgs, text) =>
    let res := proc cmdArgs
    match res.err with
    | none => ToolResult.text ("Successfully spoke: " ++ text)
    | some e => ToolResult.error (formatCommandError ctx ("Execute speech synthesis") e res.output)

/-- `handleVoices` from `src/unnamed/part_000` (lines 125-159): same
parsing and marshalling as main.go's, failures through
`formatCommandError` with action `"Retrieve voice list"`. -/
def handleVoices (ctx : Option CtxReason) (proc : Proc) : ToolResult :=
  let res := proc ["-v", "?"]
  match res.err with
  | none => ToolResult.text (goMarshalIndentVoices (parseVoices res.output))
  | some e => ToolResult.error (formatCommandError ctx ("Retrieve voice list") e res.output)

end KJSpeech.Alt

namespace KJSpeech

/-- Pretty rendering of one voice object at array-element depth, written
from the spec: an object with exactly the fields `name`, `locale`,
`description` in that order, two-space indentation. -/
def voicePretty (v : Voice) : String :=
  "    \x7b\n      \"name\": " ++ escapeJSONString v.name ++
  ",\n      \"locale\": " ++ escapeJSONString v.locale ++
  ",\n      \"description\": " ++ escapeJSONString v.description ++ "\n    \x7d"

/-- Comma-and-newline separated pretty voice objects. -/
def voicesLinesSpec : List Voice → String
  | [] => ""
  | [v] => voicePretty v
  | v :: vs => voicePretty v ++ ",\n" ++ voicesLinesSpec vs

/-- The success payload described by the spec: a JSON document with the
single field `voices` holding the records in order of appearance, each an
object with exactly the fields `name`, `locale` and `description`,
pretty-printed with 2-space indentation. -/
def voicesJSONSpec (vs : List Voice) : String :=
  match vs with
  | [] => "\x7b\n  \"voices\": []\n\x7d"
  | _ => "\x7b\n  \"voices\": [\n" ++ voicesLinesSpec vs ++ "\n  ]\n\x7d"

/-- Pretty form of one compact voice object after the indent
transformation at depth `d` (proof device for the marshalling lemma). -/
def prettyObjL (d : Nat) (v : Voice) : List Char :=
  '\x7b' :: '\n' :: (indL (d + 1) ++ escChars ("name") ++ ':' :: ' ' :: escChars v.name ++
    ',' :: '\n' :: (indL (d + 1) ++ escChars ("locale") ++ ':' :: ' ' :: escChars v.locale ++
      ',' :: '\n' :: (indL (d + 1) ++ escChars ("description") ++ ':' :: ' ' :: escChars v.description ++
        '\n' :: (indL d ++ ['\x7d']))))

/-- Pretty forms of the array elements, separated by comma, newline and
indentation (proof device for the marshalling lemma). -/
def prettyObjsL (d : Nat) : List Voice → List Char
  | [] => []
  | [v] => prettyObjL d v
  | v :: vs => prettyObjL d v ++ ',' :: '\n' :: (indL d ++ prettyObjsL d vs)

/-- The voice-flag pair contributed by an optional voice string. -/
def optVoiceFlags : Option String → List String
  | some v => ["-v", v]
  | none => []

/-- The rate-flag pair contributed by an optional rate value. -/
def optRateFlags : Option ℚ → List String
  | some q => ["-r", goFmtF0 q]
  | none => []

/-!  Lemmas about the speak path. -/

theorem speakPrep_ok_shape (args : GoArgs) (t : String) (vo : Option String) (ro : Option ℚ)
    (ht : lookupArg args ("text") = some (GoVal.str t))
    (htt : trimSpace t ≠ "")
    (hv : lookupArg args ("voice") = vo.map GoVal.str)
    (hvne : ∀ s, vo = some s → s ≠ "")
    (hr : lookupArg args ("rate") = ro.map GoVal.num)
    (hrange : ∀ q, ro = some q → 0 < q ∧ 90 ≤ q ∧ q ≤ 500) :
    speakPrep args =
      Except.ok (optVoiceFlags vo ++ optRateFlags ro ++ [trimSpace t], trimSpace t) := by
  have hva : voiceArgsOf args = optVoiceFlags vo := by
    unfold voiceArgsOf
    rw [hv]
    cases vo with
    | none => rfl
    | some v => simp [optVoiceFlags, hvne v rfl]
  unfold speakPrep requireString
  rw [ht, hr]
  cases ro with
  | none => simp [htt, hva, optRateFlags]
  | some q =>
    obtain ⟨h0, h90, h500⟩ := hrange q rfl
    have hnot : ¬(q < 90 ∨ 500 < q) := by
      push_neg
      exact ⟨h90, h500⟩
    simp [htt, hva, h0, hnot, optRateFlags]

theorem handleSpeak_of_prep_error (ctx : Option CtxReason) (args : GoArgs) (proc : Proc)
    (m : String) (h : speakPrep args = Except.error m) :
    handleSpeak ctx args proc = ToolResult.error m ∧
      Alt.handleSpeak ctx args proc = ToolResult.error m := by
  constructor <;> simp [handleSpeak, Alt.handleSpeak, h]

theorem speakPrep_validation_error (args : GoArgs)
    (h : lookupArg args ("text") = none
       ∨ (∃ v, lookupArg args ("text") = some v ∧ ∀ s, v ≠ GoVal.str s)
       ∨ (∃ s, lookupArg args ("text") = some (GoVal.str s) ∧ trimSpace s = "")
       ∨ (∃ q, lookupArg args ("rate") = some (GoVal.num q) ∧ 0 < q ∧ (q < 90 ∨ 500 < q))) :
    ∃ m, speakPrep args = Except.error m := by
  rcases h with h1 | ⟨v, hv, hns⟩ | ⟨s, hs, htr⟩ | ⟨q, hq, h0, hout⟩
  · refine ⟨("Invalid parameter \x27text\x27: required argument \"text\" not found"), ?_⟩
    unfold speakPrep requireString
    rw [h1]
    rfl
  · refine ⟨("Invalid parameter \x27text\x27: argument \"text\" is not of type \"string\""), ?_⟩
    unfold speakPrep requireString
    rw [hv]
    cases v with
    | str s => exact absurd rfl (hns s)
    | num q => rfl
    | other => rfl
  · refine ⟨("Parameter \x27text\x27 cannot be empty"), ?_⟩
    unfold speakPrep requireString
    rw [hs]
    simp [htr]
  · cases hreq : lookupArg args ("text") with
    | none =>
      refine ⟨("Invalid parameter \x27text\x27: required argument \"text\" not found"), ?_⟩
      unfold speakPrep requireString
      rw [hreq]
      rfl
    | some v =>
      cases v with
      | str s =>
        by_cases htr : trimSpace s = ""
        · refine ⟨("Parameter \x27text\x27 cannot be empty"), ?_⟩
          unfold speakPrep requireString
          rw [hreq]
          simp [htr]
        · refine ⟨("Rate " ++ goFmtF0 q ++ " is outside acceptable range (90-500 words per minute)"), ?_⟩
          unfold speakPrep requireString
          rw [hreq, hq]
          simp [htr, h0, hout]
      | num p =>
        refine ⟨("Invalid parameter \x27text\x27: argument \"text\" is not of type \"string\""), ?_⟩
        unfold speakPrep requireString
        rw [hreq]
        rfl
      | other =>
        refine ⟨("Invalid parameter \x27text\x27: argument \"text\" is not of type \"string\""), ?_⟩
        unfold speakPrep requireString
        rw [hreq]
        rfl

theorem rhe_nearest (q : ℚ) (n : ℤ) : |q - ((rhe q : ℤ) : ℚ)| ≤ |q - ((n : ℤ) : ℚ)| := by
  have h0 : ((⌊q⌋ : ℤ) : ℚ) ≤ q := Int.floor_le q
  have h1 : q < ((⌊q⌋ : ℤ) : ℚ) + 1 := Int.lt_floor_add_one q
  have hn : ((n : ℤ) : ℚ) ≤ ((⌊q⌋ : ℤ) : ℚ) ∨ ((⌊q⌋ : ℤ) : ℚ) + 1 ≤ ((n : ℤ) : ℚ) := by
    rcases le_or_lt n ⌊q⌋ with h | h
    · exact Or.inl (by exact_mod_cast h)
    · right
      have h2 : ⌊q⌋ + 1 ≤ n := h
      have h3 : ((⌊q⌋ + 1 : ℤ) : ℚ) ≤ ((n : ℤ) : ℚ) := by exact_mod_cast h2
      push_cast at h3
      linarith
  have hnlow : ∀ m : ℤ, ((m : ℤ) : ℚ) ≤ ((⌊q⌋ : ℤ) : ℚ) → q - ((⌊q⌋ : ℤ) : ℚ) ≤ |q - ((m : ℤ) : ℚ)| := by
    intro m hm
    have h2 : q - ((m : ℤ) : ℚ) ≤ |q - ((m : ℤ) : ℚ)| := le_abs_self _
    linarith
  have hnhigh : ∀ m : ℤ, ((⌊q⌋ : ℤ) : ℚ) + 1 ≤ ((m : ℤ) : ℚ) → ((⌊q⌋ : ℤ) : ℚ) + 1 - q ≤ |q - ((m : ℤ) : ℚ)| := by
    intro m hm
    have h2 : ((m : ℤ) : ℚ) - q ≤ |q - ((m : ℤ) : ℚ)| := by
      rw [abs_sub_comm]
      exact le_abs_self _
    linarith
  unfold rhe
  split_ifs with hlt hgt heven
  · have habs : |q - ((⌊q⌋ : ℤ) : ℚ)| = q - ((⌊q⌋ : ℤ) : ℚ) := abs_of_nonneg (by linarith)
    rw [habs]
    rcases hn with hm | hm
    · exact hnlow n hm
    · have h2 := hnhigh n hm
      linarith
  · have habs : |q - (((⌊q⌋ + 1 : ℤ)) : ℚ)| = ((⌊q⌋ : ℤ) : ℚ) + 1 - q := by
      push_cast
      rw [abs_of_nonpos (by linarith)]
      ring
    rw [habs]
    rcases hn with hm | hm
    · have h2 := hnlow n hm
      linarith
    · exact hnhigh n hm
  · have hr : q - ((⌊q⌋ : ℤ) : ℚ) = 1/2 := le_antisymm (not_lt.mp hgt) (not_lt.mp hlt)
    have habs : |q - ((⌊q⌋ : ℤ) : ℚ)| = q - ((⌊q⌋ : ℤ) : ℚ) := abs_of_nonneg (by linarith)
    rw [habs]
    rcases hn with hm | hm
    · exact hnlow n hm
    · have h2 := hnhigh n hm
      linarith
  · have hr : q - ((⌊q⌋ : ℤ) : ℚ) = 1/2 := le_antisymm (not_lt.mp hgt) (not_lt.mp hlt)
    have habs : |q - (((⌊q⌋ + 1 : ℤ)) : ℚ)| = ((⌊q⌋ : ℤ) : ℚ) + 1 - q := by
      push_cast
      rw [abs_of_nonpos (by linarith)]
      ring
    rw [habs]
    rcases hn with hm | hm
    · have h2 := hnlow n hm
      linarith
    · exact hnhigh n hm

theorem lookupArg_removeArg_self (args : GoArgs) (k : String) :
    lookupArg (removeArg args k) k = none := by
  induction args with
  | nil => rfl
  | cons p rest ih =>
    by_cases hp : p.1 = k
    · have hfilter : removeArg (p :: rest) k = removeArg rest k := by
        simp [removeArg, List.filter_cons, hp]
      rw [hfilter]
      exact ih
    · have hfilter : removeArg (p :: rest) k = p :: removeArg rest k := by
        simp [removeArg, List.filter_cons, hp]
      rw [hfilter]
      unfold lookupArg
      rw [List.find?_cons_of_neg _ (by simp [hp])]
      exact ih

theorem lookupArg_removeArg_ne (args : GoArgs) (k k2 : String) (h : k2 ≠ k) :
    lookupArg (removeArg args k) k2 = lookupArg args k2 := by
  induction args with
  | nil => rfl
  | cons p rest ih =>
    by_cases hp : p.1 = k
    · have hfilter : removeArg (p :: rest) k = removeArg rest k := by
        simp [removeArg, List.filter_cons, hp]
      have hp2 : ¬(p.1 = k2) := fun he => h (he.symm.trans hp)
      rw [hfilter, ih]
      unfold lookupArg
      rw [List.find?_cons_of_neg _ (by simp [hp2])]
    · have hfilter : removeArg (p :: rest) k = p :: removeArg rest k := by
        simp [removeArg, List.filter_cons, hp]
      rw [hfilter]
      unfold lookupArg
      by_cases hq : p.1 = k2
      · rw [List.find?_cons_of_pos _ (by simp [hq]), List.find?_cons_of_pos _ (by simp [hq])]
      · rw [List.find?_cons_of_neg _ (by simp [hq]), List.find?_cons_of_neg _ (by simp [hq])]
        exact ih

theorem speakPrep_ext (a b : GoArgs)
    (h1 : lookupArg a ("text") = lookupArg b ("text"))
    (h2 : lookupArg a ("rate") = lookupArg b ("rate"))
    (h3 : voiceArgsOf a = voiceArgsOf b) :
    speakPrep a = speakPrep b := by
  unfold speakPrep requireString
  rw [h1, h2, h3]

theorem speakPrep_rate_irrelevant (a b : GoArgs)
    (h1 : lookupArg a ("text") = lookupArg b ("text"))
    (h3 : voiceArgsOf a = voiceArgsOf b)
    (ha : ∀ q, lookupArg a ("rate") ≠ some (GoVal.num q))
    (hb : ∀ q, lookupArg b ("rate") ≠ some (GoVal.num q)) :
    speakPrep a = speakPrep b := by
  unfold speakPrep requireString
  rw [h1, h3]
  cases hla : lookupArg a ("rate") with
  | none =>
    cases hlb : lookupArg b ("rate") with
    | none => rfl
    | some w =>
      cases w with
      | str s => rfl
      | num p => exact absurd hlb (hb p)
      | other => rfl
  | some v =>
    cases v with
    | num p => exact absurd hla (ha p)
    | str s =>
      cases hlb : lookupArg b ("rate") with
      | none => rfl
      | some w =>
        cases w with
        | str s2 => rfl
        | num p => exact absurd hlb (hb p)
        | other => rfl
    | other =>
      cases hlb : lookupArg b ("rate") with
      | none => rfl
      | some w =>
        cases w with
        | str s2 => rfl
        | num p => exact absurd hlb (hb p)
        | other => rfl

theorem handleSpeak_congr (ctx : Option CtxReason) (a b : GoArgs) (proc : Proc)
    (h : speakPrep a = speakPrep b) :
    handleSpeak ctx a proc = handleSpeak ctx b proc ∧
      Alt.handleSpeak ctx a proc = Alt.handleSpeak ctx b proc := by
  refine ⟨?_, ?_⟩
  · unfold handleSpeak
    rw [h]
  · unfold Alt.handleSpeak
    rw [h]

/-!  Claim theorems: the speak path. -/

/-- C1: for every speak request whose trimmed text is non-empty, whose
optional voice (when present) is a non-empty string, and whose optional
rate (when present and positive) lies in [90,500], the built argument
list is exactly the voice flag pair (if any), then the rate flag pair
(if any), then the trimmed text as the single final token; no other
flags are added and the order is voice, rate, text. -/
theorem spec_c1 (args : GoArgs) (t : String) (vo : Option String) (ro : Option ℚ)
    (ht : lookupArg args ("text") = some (GoVal.str t))
    (htt : trimSpace t ≠ "")
    (hv : lookupArg args ("voice") = vo.map GoVal.str)
    (hvne : ∀ s, vo = some s → s ≠ "")
    (hr : lookupArg args ("rate") = ro.map GoVal.num)
    (hrange : ∀ q, ro = some q → 0 < q ∧ 90 ≤ q ∧ q ≤ 500) :
    speakPrep args =
      Except.ok (optVoiceFlags vo ++ optRateFlags ro ++ [trimSpace t], trimSpace t) :=
  speakPrep_ok_shape args t vo ro ht htt hv hvne hr hrange

/-- Witness for C1 at a concrete request with voice and rate. -/
theorem spec_c1_w :
    speakPrep [(("text"), GoVal.str (" Hello ")), (("voice"), GoVal.str ("Fred")),
        (("rate"), GoVal.num 200)] =
      Except.ok (["-v", "Fred", "-r", "200", "Hello"], "Hello") := by
  have h := spec_c1
    [(("text"), GoVal.str (" Hello ")), (("voice"), GoVal.str ("Fred")), (("rate"), GoVal.num 200)]
    (" Hello ") (some ("Fred")) (some 200) rfl (by decide) rfl
    (by intro s hs; cases hs; decide) rfl
    (by intro p hp; cases hp; norm_num)
  rw [h]
  have h200 : goFmtF0 ((200 : ℚ)) = ("200") := by
    unfold goFmtF0
    rw [show rhe ((200 : ℚ)) = 200 from by norm_num [rhe]]
    decide
  simp only [optVoiceFlags, optRateFlags, h200]
  congr 1

/-- C2: every speak request failing validation (text missing or not a
string, text empty after trimming, or a positive rate outside [90,500])
yields a validation error from the argument-building phase, and both
handler versions return exactly that error for every context state and
every process oracle - in particular no process invocation influences
the result. -/
theorem spec_c2 (args : GoArgs)
    (h : lookupArg args ("text") = none
       ∨ (∃ v, lookupArg args ("text") = some v ∧ ∀ s, v ≠ GoVal.str s)
       ∨ (∃ s, lookupArg args ("text") = some (GoVal.str s) ∧ trimSpace s = "")
       ∨ (∃ q, lookupArg args ("rate") = some (GoVal.num q) ∧ 0 < q ∧ (q < 90 ∨ 500 < q))) :
    ∃ m, speakPrep args = Except.error m ∧
      ∀ (ctx : Option CtxReason) (proc : Proc),
        handleSpeak ctx args proc = ToolResult.error m ∧
        Alt.handleSpeak ctx args proc = ToolResult.error m := by
  obtain ⟨m, hm⟩ := speakPrep_validation_error args h
  exact ⟨m, hm, fun ctx proc => handleSpeak_of_prep_error ctx args proc m hm⟩

/-- Witness for C2 at the whitespace-only text request. -/
theorem spec_c2_w :
    ∃ m, speakPrep [(("text"), GoVal.str ("   "))] = Except.error m ∧
      ∀ (ctx : Option CtxReason) (proc : Proc),
        handleSpeak ctx [(("text"), GoVal.str ("   "))] proc = ToolResult.error m ∧
        Alt.handleSpeak ctx [(("text"), GoVal.str ("   "))] proc = ToolResult.error m :=
  spec_c2 [(("text"), GoVal.str ("   "))]
    (Or.inr (Or.inr (Or.inl ⟨("   "), rfl, by decide⟩)))

/-- C7: for every speak request with a rate present in [90,500], the
built list carries the rate flag followed by the integer-formatted
token; that token is the rendering of a nearest integer to the rate
(ties broken to even by Go), and in particular rate 120.4 yields the
token "120". -/
theorem spec_c7 (args : GoArgs) (t : String) (q : ℚ)
    (ht : lookupArg args ("text") = some (GoVal.str t))
    (htt : trimSpace t ≠ "")
    (hq : lookupArg args ("rate") = some (GoVal.num q))
    (h90 : 90 ≤ q) (h500 : q ≤ 500) :
    speakPrep args =
      Except.ok (voiceArgsOf args ++ ["-r", goFmtF0 q] ++ [trimSpace t], trimSpace t) ∧
    goFmtF0 q = toString (rhe q) ∧
    (∀ n : ℤ, |q - ((rhe q : ℤ) : ℚ)| ≤ |q - ((n : ℤ) : ℚ)|) ∧
    goFmtF0 ((120.4 : ℚ)) = ("120") := by
  have h0 : 0 < q := lt_of_lt_of_le (by norm_num) h90
  have hnot : ¬(q < 90 ∨ 500 < q) := by
    push_neg
    exact ⟨h90, h500⟩
  refine ⟨?_, rfl, rhe_nearest q, ?_⟩
  · unfold speakPrep requireString
    rw [ht, hq]
    simp [htt, h0, hnot]
  · unfold goFmtF0
    rw [show rhe ((120.4 : ℚ)) = 120 from by norm_num [rhe]]
    decide

/-- Witness for C7 at the concrete rate 120.4. -/
theorem spec_c7_w :
    speakPrep [(("text"), GoVal.str ("Hi")), (("rate"), GoVal.num 120.4)] =
      Except.ok (["-r", "120", "Hi"], "Hi") := by
  have h := spec_c7 [(("text"), GoVal.str ("Hi")), (("rate"), GoVal.num 120.4)]
    ("Hi") (120.4) rfl (by decide) rfl (by norm_num) (by norm_num)
  rw [h.1, h.2.2.2]
  congr 1

/-- C8: a `voice` entry that is not a string, or a `rate` entry that is
not a number, is ignored: both handler versions behave on such a request
exactly as on the request with that entry removed, for every context and
process oracle. -/
theorem spec_c8 (args : GoArgs) :
    (∀ v, lookupArg args ("voice") = some v → (∀ s, v ≠ GoVal.str s) →
      ∀ (ctx : Option CtxReason) (proc : Proc),
        handleSpeak ctx args proc = handleSpeak ctx (removeArg args ("voice")) proc ∧
        Alt.handleSpeak ctx args proc = Alt.handleSpeak ctx (removeArg args ("voice")) proc)
    ∧ (∀ v, lookupArg args ("rate") = some v → (∀ p, v ≠ GoVal.num p) →
      ∀ (ctx : Option CtxReason) (proc : Proc),
        handleSpeak ctx args proc = handleSpeak ctx (removeArg args ("rate")) proc ∧
        Alt.handleSpeak ctx args proc = Alt.handleSpeak ctx (removeArg args ("rate")) proc) := by
  constructor
  · intro v hv hns ctx proc
    apply handleSpeak_congr
    apply speakPrep_ext
    · rw [lookupArg_removeArg_ne args ("voice") ("text") (by decide)]
    · rw [lookupArg_removeArg_ne args ("voice") ("rate") (by decide)]
    · unfold voiceArgsOf
      rw [hv, lookupArg_removeArg_self]
      cases v with
      | str s => exact absurd rfl (hns s)
      | num p => rfl
      | other => rfl
  · intro v hv hns ctx proc
    apply handleSpeak_congr
    apply speakPrep_rate_irrelevant
    · rw [lookupArg_removeArg_ne args ("rate") ("text") (by decide)]
    · unfold voiceArgsOf
      rw [lookupArg_removeArg_ne args ("rate") ("voice") (by decide)]
    · intro p heq
      rw [hv] at heq
      exact hns p (Option.some.inj heq)
    · intro p heq
      rw [lookupArg_removeArg_self] at heq
      exact Option.noConfusion heq

/-- Witness for C8: a numeric `voice` entry is ignored by both versions. -/
theorem spec_c8_w :
    handleSpeak none [(("text"), GoVal.str ("Hi")), (("voice"), GoVal.num 3)]
        (fun _ => ProcResult.mk none ("")) =
      handleSpeak none
        (removeArg [(("text"), GoVal.str ("Hi")), (("voice"), GoVal.num 3)] ("voice"))
        (fun _ => ProcResult.mk none ("")) :=
  ((spec_c8 [(("text"), GoVal.str ("Hi")), (("voice"), GoVal.num 3)]).1
    (GoVal.num 3) rfl (fun _ h => GoVal.noConfusion h) none
    (fun _ => ProcResult.mk none (""))).1

/-!  Claim theorems: cancellation, permission guidance, and the two
source versions. -/

/-- C4: when the context is cancelled or past its deadline and the
process invocation reports an error, every failure message is of the
cancellation class - it names the action and the cancellation cause -
and never of the execution-failure class (which starts with
"Failed to"); this holds for both handlers and for the refactored
`formatCommandError` regardless of the process error text. -/
theorem spec_c4 (r : CtxReason) (args : GoArgs) (proc : Proc)
    (p : List String × String) (e : String)
    (hp : speakPrep args = Except.ok p) (he : (proc p.1).err = some e) :
    handleSpeak (some r) args proc =
      ToolResult.error (("Speech synthesis cancelled: ") ++ ctxErrMsg r) ∧
    (∀ (proc2 : Proc) (e2 : String), (proc2 ["-v", "?"]).err = some e2 →
      handleVoices (some r) proc2 =
        ToolResult.error (("Voice listing cancelled: ") ++ ctxErrMsg r) ∧
      Alt.handleVoices (some r) proc2 =
        ToolResult.error (("Retrieve voice list cancelled: ") ++ ctxErrMsg r)) ∧
    (∀ (action e2 out2 : String),
      Alt.formatCommandError (some r) action e2 out2 =
        action ++ (" cancelled: ") ++ ctxErrMsg r) ∧
    strStartsWith ((("Speech synthesis cancelled: ") ++ ctxErrMsg r)) (("Failed to")) = false ∧
    strStartsWith ((("Voice listing cancelled: ") ++ ctxErrMsg r)) (("Failed to")) = false := by
  obtain ⟨cmdArgs, t⟩ := p
  refine ⟨?_, ?_, ?_, ?_, ?_⟩
  · simp [handleSpeak, hp, he]
  · intro proc2 e2 he2
    constructor
    · simp [handleVoices, he2]
    · simp [Alt.handleVoices, he2, Alt.formatCommandError, ← String.append_assoc]
  · intro action e2 out2
    rfl
  · cases r <;> decide
  · cases r <;> decide

/-- Witness for C4 at a concrete cancelled request whose process also
fails. -/
theorem spec_c4_w :
    handleSpeak (some CtxReason.canceled) [(("text"), GoVal.str ("Hello"))]
        (fun _ => ProcResult.mk (some ("signal: killed")) ("")) =
      ToolResult.error ("Speech synthesis cancelled: context canceled") := by
  have h := spec_c4 CtxReason.canceled [(("text"), GoVal.str ("Hello"))]
    (fun _ => ProcResult.mk (some ("signal: killed")) (""))
    ((["Hello"], "Hello")) ("signal: killed") (by rfl) rfl
  exact h.1

/-- C5: a non-cancelled process failure whose error text contains the
substring "permission denied" always yields the base execution-failure
message with the fixed permission-remediation text appended; this holds
for the speak handler of main.go and for the refactored
`formatCommandError` (hence for both refactored handlers). -/
theorem spec_c5 (args : GoArgs) (proc : Proc) (p : List String × String) (e : String)
    (hp : speakPrep args = Except.ok p) (he : (proc p.1).err = some e)
    (hperm : hasSub e ("permission denied") = true) :
    handleSpeak none args proc =
      ToolResult.error
        ((if (proc p.1).output = ("") then ("Failed to execute speech synthesis: ") ++ e
          else (("Failed to execute speech synthesis: ") ++ e) ++
            (("\nOutput: ") ++ (proc p.1).output)) ++ permissionGuidance) ∧
    (∀ (action e2 out2 : String), hasSub e2 ("permission denied") = true →
      Alt.formatCommandError none action e2 out2 =
        (if out2 = ("") then (("Failed to ") ++ asciiToLower action) ++ ((": ") ++ e2)
          else ((("Failed to ") ++ asciiToLower action) ++ ((": ") ++ e2)) ++
            (("\nOutput: ") ++ out2)) ++ permissionGuidance) := by
  obtain ⟨cmdArgs, t⟩ := p
  constructor
  · by_cases hout : (proc (cmdArgs, t).1).output = ("")
    · simp [handleSpeak, hp, he, hperm, hout, ← String.append_assoc]
    · simp [handleSpeak, hp, he, hperm, hout, ← String.append_assoc]
  · intro action e2 out2 hperm2
    by_cases hout : out2 = ("")
    · simp [Alt.formatCommandError, hperm2, hout, ← String.append_assoc]
    · simp [Alt.formatCommandError, hperm2, hout, ← String.append_assoc]

/-- Witness for C5 at a concrete permission-denied failure with output. -/
theorem spec_c5_w :
    handleSpeak none [(("text"), GoVal.str ("Hi"))]
        (fun _ => ProcResult.mk (some ("fork/exec /usr/bin/say: permission denied")) ("x")) =
      ToolResult.error
        ("Failed to execute speech synthesis: fork/exec /usr/bin/say: permission denied\nOutput: x\n\nPermission denied. Please ensure:\n1. The application has accessibility permissions in System Preferences\n2. You are running in a user session with audio output available\n3. You are not running in an SSH session without audio forwarding") := by
  have h := spec_c5 [(("text"), GoVal.str ("Hi"))]
    (fun _ => ProcResult.mk (some ("fork/exec /usr/bin/say: permission denied")) ("x"))
    ((["Hi"], "Hi")) ("fork/exec /usr/bin/say: permission denied") (by rfl) rfl (by decide)
  rw [h.1]
  congr 1

/-- C10 counterexample: the two versions are not observationally
equivalent - on a cancelled context with a failing process, main.go's
speak handler says "Speech synthesis cancelled" while the refactored
one says "Execute speech synthesis cancelled". -/
theorem spec_c10_cex :
    handleSpeak (some CtxReason.canceled) [(("text"), GoVal.str ("Hello"))]
        (fun _ => ProcResult.mk (some ("boom")) ("")) ≠
      Alt.handleSpeak (some CtxReason.canceled) [(("text"), GoVal.str ("Hello"))]
        (fun _ => ProcResult.mk (some ("boom")) ("")) := by
  decide

/-- C10 (amended): the two versions agree on every request whenever no
cancellation coincides with a process error and, for the voices
handler, the error text does not contain "permission denied": an
uncancelled context, a validation failure under any context state, or
a process success under any context state all yield identical results;
they differ exactly in the cancellation message texts (main.go names
the action "Speech synthesis"/"Voice listing", the refactor
"Execute speech synthesis"/"Retrieve voice list") and in that only the
refactored voices handler appends the permission guidance. -/
theorem spec_c10 (args : GoArgs) (proc : Proc) :
    (handleSpeak none args proc = Alt.handleSpeak none args proc) ∧
    (∀ (ctx : Option CtxReason) (m : String),
      speakPrep args = Except.error m →
      handleSpeak ctx args proc = Alt.handleSpeak ctx args proc ∧
      handleSpeak ctx args proc = ToolResult.error m) ∧
    (∀ (r : CtxReason) (p : List String × String),
      speakPrep args = Except.ok p → (proc p.1).err = none →
      handleSpeak (some r) args proc = Alt.handleSpeak (some r) args proc) ∧
    (∀ (r : CtxReason) (p : List String × String) (e : String),
      speakPrep args = Except.ok p → (proc p.1).err = some e →
      handleSpeak (some r) args proc =
        ToolResult.error (("Speech synthesis cancelled: ") ++ ctxErrMsg r) ∧
      Alt.handleSpeak (some r) args proc =
        ToolResult.error (("Execute speech synthesis cancelled: ") ++ ctxErrMsg r)) ∧
    (∀ (e : String), (proc ["-v", "?"]).err = some e →
      hasSub e ("permission denied") = false →
      handleVoices none proc = Alt.handleVoices none proc) ∧
    (∀ (e : String), (proc ["-v", "?"]).err = some e →
      hasSub e ("permission denied") = true →
      handleVoices none proc =
        ToolResult.error
          (if (proc ["-v", "?"]).output = ("") then ("Failed to retrieve voice list: ") ++ e
            else (("Failed to retrieve voice list: ") ++ e) ++
              (("\nOutput: ") ++ (proc ["-v", "?"]).output)) ∧
      Alt.handleVoices none proc =
        ToolResult.error
          ((if (proc ["-v", "?"]).output = ("") then ("Failed to retrieve voice list: ") ++ e
            else (("Failed to retrieve voice list: ") ++ e) ++
              (("\nOutput: ") ++ (proc ["-v", "?"]).output)) ++ permissionGuidance)) ∧
    ((proc ["-v", "?"]).err = none →
      ∀ (ctx : Option CtxReason), handleVoices ctx proc = Alt.handleVoices ctx proc) ∧
    (∀ (r : CtxReason) (e : String), (proc ["-v", "?"]).err = some e →
      handleVoices (some r) proc =
        ToolResult.error (("Voice listing cancelled: ") ++ ctxErrMsg r) ∧
      Alt.handleVoices (some r) proc =
        ToolResult.error (("Retrieve voice list cancelled: ") ++ ctxErrMsg r)) := by
  have hlowS : asciiToLower ("Execute speech synthesis") = ("execute speech synthesis") := by decide
  have hlowV : asciiToLower ("Retrieve voice list") = ("retrieve voice list") := by decide
  refine ⟨?_, ?_, ?_, ?_, ?_, ?_, ?_, ?_⟩
  · cases hsp : speakPrep args with
    | error m => simp [handleSpeak, Alt.handleSpeak, hsp]
    | ok p =>
      obtain ⟨cmdArgs, t⟩ := p
      cases he : (proc cmdArgs).err with
      | none => simp [handleSpeak, Alt.handleSpeak, hsp, he]
      | some e =>
        simp [handleSpeak, Alt.handleSpeak, hsp, he, Alt.formatCommandError, hlowS,
          ← String.append_assoc]
  · intro ctx m hm
    obtain ⟨h1, h2⟩ := handleSpeak_of_prep_error ctx args proc m hm
    exact ⟨h1.trans h2.symm, h1⟩
  · intro r p hp he
    obtain ⟨cmdArgs, t⟩ := p
    simp [handleSpeak, Alt.handleSpeak, hp, he]
  · intro r p e hp he
    obtain ⟨cmdArgs, t⟩ := p
    constructor
    · simp [handleSpeak, hp, he]
    · simp [Alt.handleSpeak, hp, he, Alt.formatCommandError, ← String.append_assoc]
  · intro e he hnp
    simp [handleVoices, Alt.handleVoices, he, Alt.formatCommandError, hnp, hlowV,
      ← String.append_assoc]
  · intro e he hp
    constructor
    · simp [handleVoices, he, hp, ← String.append_assoc]
    · simp [Alt.handleVoices, he, Alt.formatCommandError, hp, hlowV, ← String.append_assoc]
  · intro he ctx
    simp [handleVoices, Alt.handleVoices, he]
  · intro r e he
    constructor
    · simp [handleVoices, he]
    · simp [Alt.handleVoices, he, Alt.formatCommandError, ← String.append_assoc]

/-- Witness for C10 at a concrete request: the agreeing non-cancelled
failure case and the diverging cancellation case. -/
theorem spec_c10_w :
    handleSpeak none [(("text"), GoVal.str ("Hello"))]
        (fun _ => ProcResult.mk (some ("boom")) ("")) =
      Alt.handleSpeak none [(("text"), GoVal.str ("Hello"))]
        (fun _ => ProcResult.mk (some ("boom")) ("")) :=
  (spec_c10 [(("text"), GoVal.str ("Hello"))]
    (fun _ => ProcResult.mk (some ("boom")) (""))).1

/-!  Lemmas about line splitting and the voice parser. -/

theorem splitNL_ne_nil (cs : List Char) : splitNL cs ≠ [] := by
  induction cs with
  | nil => simp [splitNL]
  | cons c rest ih =>
    unfold splitNL
    by_cases h : c = '\n'
    · simp [h]
    · rw [if_neg h]
      cases hs : splitNL rest with
      | nil => simp
      | cons t ts => simp

theorem splitNL_no_nl (l : List Char) (h : ('\n') ∉ l) : splitNL l = [l] := by
  induction l with
  | nil => rfl
  | cons c rest ih =>
    have hc : c ≠ '\n' := fun he => h (he ▸ List.mem_cons_self c rest)
    have hr : ('\n') ∉ rest := fun hm => h (List.mem_cons_of_mem c hm)
    unfold splitNL
    rw [if_neg hc, ih hr]

theorem splitNL_append (l rest : List Char) (h : ('\n') ∉ l) :
    splitNL (l ++ '\n' :: rest) = l :: splitNL rest := by
  induction l with
  | nil => simp [splitNL]
  | cons c l2 ih =>
    have hc : c ≠ '\n' := fun he => h (he ▸ List.mem_cons_self c l2)
    have hl : ('\n') ∉ l2 := fun hm => h (List.mem_cons_of_mem c hm)
    show splitNL (c :: (l2 ++ '\n' :: rest)) = (c :: l2) :: splitNL rest
    conv_lhs => rw [splitNL]
    rw [if_neg hc, ih hl]

theorem splitNL_joinNL (ls : List (List Char)) (h0 : ls ≠ [])
    (h : ∀ l ∈ ls, ('\n') ∉ l) : splitNL (joinNL ls) = ls := by
  induction ls with
  | nil => exact absurd rfl h0
  | cons l ls2 ih =>
    cases ls2 with
    | nil => exact splitNL_no_nl l (h l (by simp))
    | cons l2 ls3 =>
      have hj : joinNL (l :: l2 :: ls3) = l ++ '\n' :: joinNL (l2 :: ls3) := rfl
      rw [hj, splitNL_append l _ (h l (by simp)),
        ih (by simp) (fun x hx => h x (List.mem_cons_of_mem l hx))]

theorem head?_append_cons {α : Type} (xs : List α) (y : α) (ys zs : List α) :
    (xs ++ y :: ys).head? = (xs ++ y :: zs).head? := by
  cases xs <;> simp

theorem voiceMatchAux_head (cs : List Char) :
    ∀ (acc g1 g2 g3 : List Char), voiceMatchAux acc cs = some (g1, g2, g3) →
      g1.head? = (acc.reverse ++ cs).head? := by
  induction cs with
  | nil =>
    intro acc g1 g2 g3 h
    simp [voiceMatchAux] at h
  | cons c rest ih =>
    intro acc g1 g2 g3 h
    unfold voiceMatchAux at h
    by_cases hc : c = '\n'
    · simp [hc] at h
    · rw [if_neg hc] at h
      cases hmt : matchTail rest with
      | none =>
        rw [hmt] at h
        have h2 := ih (c :: acc) g1 g2 g3 h
        rw [h2, List.reverse_cons, List.append_assoc]
        rfl
      | some pr =>
        obtain ⟨a, b⟩ := pr
        rw [hmt] at h
        dsimp only at h
        by_cases hb : b.contains '\n'
        · rw [if_pos hb] at h
          have h2 := ih (c :: acc) g1 g2 g3 h
          rw [h2, List.reverse_cons, List.append_assoc]
          rfl
        · rw [if_neg hb] at h
          have h2 : (c :: acc).reverse = g1 := congrArg (fun p => p.1) (Option.some.inj h)
          rw [← h2, List.reverse_cons]
          exact head?_append_cons acc.reverse c [] rest

theorem trimChars_split (cs : List Char) :
    cs.dropWhile goUnicodeSpace =
      trimChars cs ++ ((cs.dropWhile goUnicodeSpace).reverse.takeWhile goUnicodeSpace).reverse := by
  have h1 : ((cs.dropWhile goUnicodeSpace).reverse.takeWhile goUnicodeSpace) ++
      ((cs.dropWhile goUnicodeSpace).reverse.dropWhile goUnicodeSpace) =
      (cs.dropWhile goUnicodeSpace).reverse :=
    List.takeWhile_append_dropWhile goUnicodeSpace ((cs.dropWhile goUnicodeSpace).reverse)
  conv_lhs => rw [← List.reverse_reverse (cs.dropWhile goUnicodeSpace), ← h1]
  rw [List.reverse_append]
  rfl

theorem trimChars_head (cs : List Char) (h : trimChars cs ≠ []) :
    ∃ c rest2, trimChars cs = c :: rest2 ∧ goUnicodeSpace c = false := by
  cases htc : trimChars cs with
  | nil => exact absurd htc h
  | cons c r2 =>
    refine ⟨c, r2, rfl, ?_⟩
    have hx := trimChars_split cs
    rw [htc] at hx
    have hhead : (cs.dropWhile goUnicodeSpace).head? = some c := by
      rw [hx]
      rfl
    have h2 := List.head?_dropWhile_not goUnicodeSpace cs
    rw [hhead] at h2
    exact h2

theorem trimChars_ne_nil_of_head (c : Char) (r : List Char)
    (hc : goUnicodeSpace c = false) : trimChars (c :: r) ≠ [] := by
  intro he
  unfold trimChars at he
  rw [List.dropWhile_cons_of_neg (by simp [hc])] at he
  rw [List.reverse_eq_nil_iff] at he
  have h3 := List.dropWhile_eq_nil_iff.mp he
  have h4 : goUnicodeSpace c = true := h3 c (by simp)
  rw [hc] at h4
  exact Bool.noConfusion h4

theorem parseLine_inv (l : List Char) (v : Voice) (h : parseLine l = some v) :
    trimChars l ≠ [] ∧ ∃ g1 g2 g3, voiceMatch (trimChars l) = some (g1, g2, g3) ∧
      v = ⟨String.mk (trimChars g1), String.mk (trimChars g2), String.mk (trimChars g3)⟩ := by
  simp only [parseLine] at h
  by_cases ht : trimChars l = []
  · rw [if_pos ht] at h
    exact absurd h (by simp)
  · rw [if_neg ht] at h
    cases hm : voiceMatch (trimChars l) with
    | none =>
      rw [hm] at h
      exact absurd h (by simp)
    | some g =>
      obtain ⟨g1, g2, g3⟩ := g
      rw [hm] at h
      exact ⟨ht, g1, g2, g3, rfl, (Option.some.inj h).symm⟩

/-!  Claim theorems: the voice-list parser. -/

/-- C3: the well-formed catalog line about Albert parses to the single
expected record, a header line lacking the # marker and a blank line
each produce zero records, and any five newline-free lines of which
exactly three parse (to v1, v2, v3 in order) yield, once joined into
one output text, exactly those three records in order of appearance. -/
theorem spec_c3 :
    parseVoices ("Albert    en_US    # Hello! My name is Albert.") =
      [⟨("Albert"), ("en_US"), ("Hello! My name is Albert.")⟩] ∧
    parseVoices ("Voice              Language           Description") = [] ∧
    parseVoices ("") = [] ∧
    ∀ (ls : List (List Char)) (v1 v2 v3 : Voice),
      ls.length = 5 → (∀ l ∈ ls, ('\n') ∉ l) →
      ls.filterMap parseLine = [v1, v2, v3] →
      parseVoices (String.mk (joinNL ls)) = [v1, v2, v3] := by
  refine ⟨by decide, by decide, by decide, ?_⟩
  intro ls v1 v2 v3 hlen hnl hfm
  have h0 : ls ≠ [] := by
    intro he
    rw [he] at hlen
    simp at hlen
  unfold parseVoices
  rw [show (String.mk (joinNL ls)).toList = joinNL ls from rfl]
  rw [splitNL_joinNL ls h0 hnl, hfm]

/-- Witness for C3: three well-formed lines interleaved with a header
and a blank line. -/
theorem spec_c3_w :
    parseVoices (String.mk (joinNL
      [("Albert    en_US    # Hello! My name is Albert.").toList,
       ("Voice              Language           Description").toList,
       ("Bruce     en_GB    # Cheers.").toList,
       ("").toList,
       ("Fred      en_US    # Hi there.").toList])) =
      [⟨("Albert"), ("en_US"), ("Hello! My name is Albert.")⟩,
       ⟨("Bruce"), ("en_GB"), ("Cheers.")⟩,
       ⟨("Fred"), ("en_US"), ("Hi there.")⟩] :=
  (spec_c3).2.2.2
    [("Albert    en_US    # Hello! My name is Albert.").toList,
     ("Voice              Language           Description").toList,
     ("Bruce     en_GB    # Cheers.").toList,
     ("").toList,
     ("Fred      en_US    # Hi there.").toList]
    _ _ _ (by decide) (by decide) (by decide)

/-- C6 counterexample: the parser accepts the line "Albert en_US #" and
produces a record whose description field is the empty string, so not
every field of every produced record is populated. -/
theorem spec_c6_cex :
    parseVoices ("Albert en_US #") = [⟨("Albert"), ("en_US"), ("")⟩] ∧
    Voice.description ⟨("Albert"), ("en_US"), ("")⟩ = ("") := by
  constructor
  · decide
  · rfl

/-- C6 (amended): every record produced by the parser comes wholly from
one line whose match yielded all three captures (so no partial records
exist), and its name field is always non-empty; the locale and
description fields are trimmed captures that can be empty. -/
theorem spec_c6 (out : String) (v : Voice) (hv : v ∈ parseVoices out) :
    v.name ≠ ("") ∧ ∃ l ∈ splitNL out.toList, parseLine l = some v := by
  have hv2 := hv
  unfold parseVoices at hv2
  obtain ⟨l, hl, hpl⟩ := List.mem_filterMap.mp hv2
  refine ⟨?_, l, hl, hpl⟩
  obtain ⟨ht, g1, g2, g3, hm, hveq⟩ := parseLine_inv l v hpl
  obtain ⟨c, r2, htc, hcns⟩ := trimChars_head l ht
  have hh : g1.head? = (trimChars l).head? := by
    have h2 := voiceMatchAux_head (trimChars l) [] g1 g2 g3 hm
    simpa using h2
  rw [htc] at hh
  obtain ⟨g1t, hg1⟩ : ∃ g1t, g1 = c :: g1t := by
    cases g1 with
    | nil => exact absurd hh (by simp)
    | cons a b =>
      simp only [List.head?] at hh
      exact ⟨b, by rw [Option.some.inj hh]⟩
  have hne : trimChars g1 ≠ [] := by
    rw [hg1]
    exact trimChars_ne_nil_of_head c g1t hcns
  rw [hveq]
  intro he
  exact hne (congrArg String.data he)

/-- Witness for C6 at a concrete parsed record. -/
theorem spec_c6_w :
    Voice.name ⟨("Albert"), ("en_US"), ("Hi")⟩ ≠ ("") ∧
    ∃ l ∈ splitNL ("Albert en_US # Hi").toList,
      parseLine l = some ⟨("Albert"), ("en_US"), ("Hi")⟩ :=
  spec_c6 ("Albert en_US # Hi") ⟨("Albert"), ("en_US"), ("Hi")⟩ (by decide)

/-!  Lemmas about the indent transformation (C9). -/

theorem aux_quote_open (d : Nat) (e : Bool) (rest : List Char) :
    indentGoAux d false e ('"' :: rest) = '"' :: indentGoAux d true false rest := by
  cases e <;> (rw [indentGoAux.eq_def]; simp)

theorem aux_str_char (d : Nat) (c : Char) (rest : List Char)
    (h1 : ¬c = '\\') (h2 : ¬c = '"') :
    indentGoAux d true false (c :: rest) = c :: indentGoAux d true false rest := by
  rw [indentGoAux]
  simp [h1, h2]

theorem aux_str_bs (d : Nat) (rest : List Char) :
    indentGoAux d true false ('\\' :: rest) = '\\' :: indentGoAux d true true rest := by
  rw [indentGoAux]
  simp

theorem aux_str_esc (d : Nat) (c : Char) (rest : List Char) :
    indentGoAux d true true (c :: rest) = c :: indentGoAux d true false rest := by
  rw [indentGoAux]

theorem aux_str_close (d : Nat) (rest : List Char) :
    indentGoAux d true false ('"' :: rest) = '"' :: indentGoAux d false false rest := by
  rw [indentGoAux]
  simp

theorem aux_open_obj (d : Nat) (e : Bool) (c2 : Char) (cs2 : List Char) (h : ¬c2 = '\x7d') :
    indentGoAux d false e ('\x7b' :: c2 :: cs2) =
      '\x7b' :: '\n' :: (indL (d + 1) ++ indentGoAux (d + 1) false false (c2 :: cs2)) := by
  rw [indentGoAux]
  simp [h]

theorem aux_open_arr (d : Nat) (e : Bool) (c2 : Char) (cs2 : List Char) (h : ¬c2 = ']') :
    indentGoAux d false e ('[' :: c2 :: cs2) =
      '[' :: '\n' :: (indL (d + 1) ++ indentGoAux (d + 1) false false (c2 :: cs2)) := by
  rw [indentGoAux]
  simp [h]

theorem aux_close_obj (d : Nat) (e : Bool) (rest : List Char) :
    indentGoAux d false e ('\x7d' :: rest) =
      '\n' :: (indL (d - 1) ++ '\x7d' :: indentGoAux (d - 1) false false rest) := by
  cases e <;> (rw [indentGoAux.eq_def]; simp)

theorem aux_close_arr (d : Nat) (e : Bool) (rest : List Char) :
    indentGoAux d false e (']' :: rest) =
      '\n' :: (indL (d - 1) ++ ']' :: indentGoAux (d - 1) false false rest) := by
  cases e <;> (rw [indentGoAux.eq_def]; simp)

theorem aux_comma (d : Nat) (e : Bool) (rest : List Char) :
    indentGoAux d false e (',' :: rest) =
      ',' :: '\n' :: (indL d ++ indentGoAux d false false rest) := by
  cases e <;> (rw [indentGoAux.eq_def]; simp)

theorem aux_colon (d : Nat) (e : Bool) (rest : List Char) :
    indentGoAux d false e (':' :: rest) = ':' :: ' ' :: indentGoAux d false false rest := by
  cases e <;> (rw [indentGoAux.eq_def]; simp)


theorem aux_nil (d : Nat) (b1 b2 : Bool) : indentGoAux d b1 b2 [] = [] := by
  cases b1 <;> cases b2 <;> rw [indentGoAux.eq_def]

theorem aux_open_arr_empty (d : Nat) (e : Bool) (cs2 : List Char) :
    indentGoAux d false e ('[' :: ']' :: cs2) = '[' :: ']' :: indentGoAux d false false cs2 := by
  rw [indentGoAux]
  simp

theorem hexDigit_ne : ∀ n : Nat, n < 16 → ¬hexDigit n = '\\' ∧ ¬hexDigit n = '"' := by
  decide

theorem aux_copy_plain (d : Nat) (l : List Char) (rest : List Char)
    (h : ∀ x ∈ l, ¬x = '\\' ∧ ¬x = '"') :
    indentGoAux d true false (l ++ rest) = l ++ indentGoAux d true false rest := by
  induction l with
  | nil => simp
  | cons x l2 ih =>
    have hx := h x (List.mem_cons_self x l2)
    rw [List.cons_append, aux_str_char d x _ hx.1 hx.2,
      ih (fun y hy => h y (List.mem_cons_of_mem x hy))]
    rfl

theorem escCharL_shape (c : Char) :
    (escCharL c = [c] ∧ ¬c = '\\' ∧ ¬c = '"') ∨
    (∃ x tail, escCharL c = '\\' :: x :: tail ∧ ∀ y ∈ tail, ¬y = '\\' ∧ ¬y = '"') := by
  by_cases h1 : c = '"'
  · subst h1
    exact Or.inr ⟨'"', [], by decide, by simp⟩
  by_cases h2 : c = '\\'
  · subst h2
    exact Or.inr ⟨'\\', [], by decide, by simp⟩
  by_cases h3 : c = '\n'
  · subst h3
    exact Or.inr ⟨'n', [], by decide, by simp⟩
  by_cases h4 : c = '\r'
  · subst h4
    exact Or.inr ⟨'r', [], by decide, by simp⟩
  by_cases h5 : c = '\t'
  · subst h5
    exact Or.inr ⟨'t', [], by decide, by simp⟩
  by_cases h6 : c.toNat < 32
  · refine Or.inr ⟨'u', ['0', '0', hexDigit (c.toNat / 16), hexDigit (c.toNat % 16)], ?_, ?_⟩
    · unfold escCharL
      rw [if_neg h1, if_neg h2, if_neg h3, if_neg h4, if_neg h5, if_pos h6]
    · have hb1 := hexDigit_ne (c.toNat / 16) (by omega)
      have hb2 := hexDigit_ne (c.toNat % 16) (Nat.mod_lt _ (by norm_num))
      intro y hy
      simp only [List.mem_cons, List.not_mem_nil, or_false] at hy
      rcases hy with rfl | rfl | rfl | rfl
      · exact ⟨by decide, by decide⟩
      · exact ⟨by decide, by decide⟩
      · exact hb1
      · exact hb2
  by_cases h7 : c = '<'
  · subst h7
    exact Or.inr ⟨'u', ['0', '0', '3', 'c'], by decide, by decide⟩
  by_cases h8 : c = '>'
  · subst h8
    exact Or.inr ⟨'u', ['0', '0', '3', 'e'], by decide, by decide⟩
  by_cases h9 : c = '&'
  · subst h9
    exact Or.inr ⟨'u', ['0', '0', '2', '6'], by decide, by decide⟩
  by_cases h10 : c.toNat = 0x2028
  · refine Or.inr ⟨'u', ['2', '0', '2', '8'], ?_, by decide⟩
    unfold escCharL
    rw [if_neg h1, if_neg h2, if_neg h3, if_neg h4, if_neg h5, if_neg h6, if_neg h7,
      if_neg h8, if_neg h9, if_pos h10]
  by_cases h11 : c.toNat = 0x2029
  · refine Or.inr ⟨'u', ['2', '0', '2', '9'], ?_, by decide⟩
    unfold escCharL
    rw [if_neg h1, if_neg h2, if_neg h3, if_neg h4, if_neg h5, if_neg h6, if_neg h7,
      if_neg h8, if_neg h9, if_neg h10, if_pos h11]
  · refine Or.inl ⟨?_, h2, h1⟩
    unfold escCharL
    rw [if_neg h1, if_neg h2, if_neg h3, if_neg h4, if_neg h5, if_neg h6, if_neg h7,
      if_neg h8, if_neg h9, if_neg h10, if_neg h11]

theorem aux_copy_chunk (d : Nat) (c : Char) (rest : List Char) :
    indentGoAux d true false (escCharL c ++ rest) = escCharL c ++ indentGoAux d true false rest := by
  rcases escCharL_shape c with ⟨heq, hb, hq⟩ | ⟨x, tail, heq, htail⟩
  · rw [heq, List.cons_append, List.nil_append, aux_str_char d c rest hb hq]
    rfl
  · rw [heq, List.cons_append, List.cons_append, aux_str_bs, aux_str_esc,
      aux_copy_plain d tail rest htail]
    rfl

theorem aux_copy_body (d : Nat) (cs : List Char) (rest : List Char) :
    indentGoAux d true false ((cs.map escCharL).flatten ++ rest) =
      (cs.map escCharL).flatten ++ indentGoAux d true false rest := by
  induction cs with
  | nil => simp
  | cons c cs2 ih =>
    rw [List.map_cons, List.flatten_cons, List.append_assoc, aux_copy_chunk, ih,
      ← List.append_assoc]

theorem aux_copy_str (d : Nat) (s : String) (rest : List Char) :
    indentGoAux d false false (escChars s ++ rest) =
      escChars s ++ indentGoAux d false false rest := by
  unfold escChars
  simp only [List.cons_append, List.append_assoc, List.singleton_append]
  rw [aux_quote_open, aux_copy_body, aux_str_close]
  simp

theorem aux_open_obj_str (d : Nat) (e : Bool) (s : String) (X : List Char) :
    indentGoAux d false e ('\x7b' :: (escChars s ++ X)) =
      '\x7b' :: '\n' :: (indL (d + 1) ++ indentGoAux (d + 1) false false (escChars s ++ X)) := by
  unfold escChars
  simp only [List.cons_append, List.append_assoc, List.singleton_append]
  rw [aux_open_obj d e _ _ (by decide)]

theorem aux_open_arr_obj (d : Nat) (e : Bool) (v : Voice) (X : List Char) :
    indentGoAux d false e ('[' :: (objL v ++ X)) =
      '[' :: '\n' :: (indL (d + 1) ++ indentGoAux (d + 1) false false (objL v ++ X)) := by
  unfold objL
  simp only [List.cons_append]
  rw [aux_open_arr d e _ _ (by decide)]

theorem aux_obj (d : Nat) (v : Voice) (rest : List Char) :
    indentGoAux d false false (objL v ++ rest) =
      prettyObjL d v ++ indentGoAux d false false rest := by
  have h1 : objL v ++ rest = '\x7b' :: (escChars ("name") ++
      (':' :: (escChars v.name ++ (',' :: (escChars ("locale") ++
        (':' :: (escChars v.locale ++ (',' :: (escChars ("description") ++
          (':' :: (escChars v.description ++ ('\x7d' :: rest)))))))))))) := by
    unfold objL
    simp [List.append_assoc]
  rw [h1, aux_open_obj_str, aux_copy_str, aux_colon, aux_copy_str, aux_comma, aux_copy_str,
    aux_colon, aux_copy_str, aux_comma, aux_copy_str, aux_colon, aux_copy_str, aux_close_obj]
  unfold prettyObjL
  simp [List.append_assoc]

theorem aux_objs (d : Nat) (v : Voice) (vs : List Voice) (rest : List Char) :
    indentGoAux d false false (objsL (v :: vs) ++ rest) =
      prettyObjsL d (v :: vs) ++ indentGoAux d false false rest := by
  induction vs generalizing v with
  | nil => simpa [objsL, prettyObjsL] using aux_obj d v rest
  | cons v2 vs2 ih =>
    have h1 : objsL (v :: v2 :: vs2) ++ rest =
        objL v ++ (',' :: (objsL (v2 :: vs2) ++ rest)) := by
      rw [show objsL (v :: v2 :: vs2) = objL v ++ ',' :: objsL (v2 :: vs2) from rfl]
      simp [List.append_assoc]
    have h2 : prettyObjsL d (v :: v2 :: vs2) =
        prettyObjL d v ++ ',' :: '\n' :: (indL d ++ prettyObjsL d (v2 :: vs2)) := rfl
    rw [h1, h2, aux_obj, aux_comma, ih v2]
    simp [List.append_assoc]

theorem aux_open_arr_objs (d : Nat) (e : Bool) (v : Voice) (vs : List Voice) (X : List Char) :
    indentGoAux d false e ('[' :: (objsL (v :: vs) ++ X)) =
      '[' :: '\n' :: (indL (d + 1) ++ indentGoAux (d + 1) false false (objsL (v :: vs) ++ X)) := by
  cases vs with
  | nil => exact aux_open_arr_obj d e v X
  | cons v2 vs2 =>
    have h : objsL (v :: v2 :: vs2) ++ X = objL v ++ ((',' :: objsL (v2 :: vs2)) ++ X) := by
      rw [show objsL (v :: v2 :: vs2) = objL v ++ ',' :: objsL (v2 :: vs2) from rfl,
        List.append_assoc]
    rw [h]
    exact aux_open_arr_obj d e v _

theorem smk_append (a b : List Char) : String.mk a ++ String.mk b = String.mk (a ++ b) := rfl

theorem voicePretty_mk (v : Voice) :
    voicePretty v = String.mk (indL 2 ++ prettyObjL 2 v) := by
  have l1 : ("    \x7b\n      \"name\": ") =
      String.mk (indL 2 ++ '\x7b' :: '\n' :: (indL 3 ++ escChars ("name") ++ [':', ' '])) := by
    decide
  have l2 : (",\n      \"locale\": ") =
      String.mk (',' :: '\n' :: (indL 3 ++ escChars ("locale") ++ [':', ' '])) := by decide
  have l3 : (",\n      \"description\": ") =
      String.mk (',' :: '\n' :: (indL 3 ++ escChars ("description") ++ [':', ' '])) := by decide
  have l4 : ("\n    \x7d") = String.mk ('\n' :: (indL 2 ++ ['\x7d'])) := by decide
  unfold voicePretty
  rw [l1, l2, l3, l4]
  simp only [show ∀ s, escapeJSONString s = String.mk (escChars s) from fun s => rfl]
  rw [smk_append, smk_append, smk_append, smk_append, smk_append]
  exact congrArg String.mk (by unfold prettyObjL; simp [List.append_assoc])

theorem voicesLinesSpec_mk (vs : List Voice) (v : Voice) :
    voicesLinesSpec (v :: vs) = String.mk (indL 2 ++ prettyObjsL 2 (v :: vs)) := by
  induction vs generalizing v with
  | nil =>
    show voicePretty v = _
    rw [voicePretty_mk]
    rfl
  | cons v2 vs2 ih =>
    show voicePretty v ++ ",\n" ++ voicesLinesSpec (v2 :: vs2) = _
    rw [voicePretty_mk, ih v2, show (",\n") = String.mk [',', '\n'] from rfl,
      smk_append, smk_append]
    exact congrArg String.mk (by
      rw [show prettyObjsL 2 (v :: v2 :: vs2) =
        prettyObjL 2 v ++ ',' :: '\n' :: (indL 2 ++ prettyObjsL 2 (v2 :: vs2)) from rfl]
      simp [List.append_assoc])

theorem goMarshal_eq_spec (vs : List Voice) :
    goMarshalIndentVoices vs = voicesJSONSpec vs := by
  cases vs with
  | nil =>
    unfold goMarshalIndentVoices compactVoicesL voicesJSONSpec
    rw [show ('\x7b' :: (escChars ("voices") ++ ':' :: ['[', ']'] ++ ['\x7d']) : List Char) =
      '\x7b' :: (escChars ("voices") ++ (':' :: '[' :: ']' :: ['\x7d'])) from by
        simp [List.append_assoc]]
    rw [aux_open_obj_str, aux_copy_str, aux_colon, aux_open_arr_empty, aux_close_obj]
    rw [aux_nil]
    decide
  | cons v vs2 =>
    unfold goMarshalIndentVoices compactVoicesL
    rw [show ('\x7b' :: (escChars ("voices") ++ ':' ::
        ('[' :: objsL (v :: vs2) ++ [']']) ++ ['\x7d']) : List Char) =
      '\x7b' :: (escChars ("voices") ++ (':' :: '[' ::
        (objsL (v :: vs2) ++ (']' :: ['\x7d'])))) from by simp [List.append_assoc]]
    rw [aux_open_obj_str, aux_copy_str, aux_colon]
    rw [show ('[' :: (objsL (v :: vs2) ++ (']' :: ['\x7d']))) =
      '[' :: (objsL (v :: vs2) ++ (']' :: ['\x7d']))  from rfl]
    rw [aux_open_arr_objs 1 false v vs2 (']' :: ['\x7d']), aux_objs, aux_close_arr,
      aux_close_obj, aux_nil]
    rw [show voicesJSONSpec (v :: vs2) =
      ("\x7b\n  \"voices\": [\n") ++ voicesLinesSpec (v :: vs2) ++ ("\n  ]\n\x7d") from rfl]
    rw [voicesLinesSpec_mk vs2 v,
      show ("\x7b\n  \"voices\": [\n") =
        String.mk ('\x7b' :: '\n' :: (indL 1 ++ escChars ("voices") ++ [':', ' ', '[', '\n'])) from
        by decide,
      show ("\n  ]\n\x7d") = String.mk ('\n' :: (indL 1 ++ [']', '\n', '\x7d'])) from by decide,
      smk_append, smk_append]
    exact congrArg String.mk (by simp [List.append_assoc, indL])

/-!  Claim theorem: the list_voices success payload. -/

/-- C9: every successful list_voices invocation returns, in both source
versions, exactly the JSON document of the spec's shape: a single field
"voices" holding one object per parsed voice with exactly the fields
name, locale and description in that order, pretty-printed with 2-space
indentation, the array order being the order of appearance of the voice
lines in the external command's output (the order of `parseVoices`). -/
theorem spec_c9 (ctx : Option CtxReason) (proc : Proc)
    (hok : (proc ["-v", "?"]).err = none) :
    handleVoices ctx proc =
      ToolResult.text (voicesJSONSpec (parseVoices (proc ["-v", "?"]).output)) ∧
    Alt.handleVoices ctx proc =
      ToolResult.text (voicesJSONSpec (parseVoices (proc ["-v", "?"]).output)) := by
  constructor
  · simp [handleVoices, hok, goMarshal_eq_spec]
  · simp [Alt.handleVoices, hok, goMarshal_eq_spec]

/-- Witness for C9 at a concrete one-voice listing. -/
theorem spec_c9_w :
    handleVoices none (fun _ => ProcResult.mk none ("Albert    en_US    # Hello.")) =
      ToolResult.text ("\x7b\n  \"voices\": [\n    \x7b\n      \"name\": \"Albert\",\n      \"locale\": \"en_US\",\n      \"description\": \"Hello.\"\n    \x7d\n  ]\n\x7d") := by
  have h := (spec_c9 none (fun _ => ProcResult.mk none ("Albert    en_US    # Hello.")) rfl).1
  rw [h]
  congr 1

end KJSpeech







